import Mathlib

/-!
Shallow embedding of `es_pii_extract_update.py`: a batch tool that scans an
Elasticsearch index, detects PII-like strings (e.g. Canadian SIN numbers) in
free-text fields, writes a CSV report and optionally queues idempotent bulk
updates.  Python strings are modelled as Lean `String`, dicts as association
lists, JSON values as the `JValue` tagged type, machine integers as `Nat`/`Int`,
and fallible code as `Option`/`Except`.  The regex engine and YAML parser are
external collaborators of the program; the one compiled pattern whose semantics
the program owns (the NAS pattern) is implemented concretely below, while
user-supplied patterns are passed through an abstract `compile` oracle.
-/

set_option maxRecDepth 4000

/-- Partial model of the Unicode decimal-digit (category Nd) table used by
Python's `int(ch)`: covers ASCII, Arabic-Indic, Extended Arabic-Indic,
Devanagari and fullwidth digit ranges.  `some v` is the digit value (0-9). -/
def charDecimalValue (c : Char) : Option Nat :=
  let n := c.toNat
  if 0x30 ≤ n ∧ n ≤ 0x39 then some (n - 0x30)
  else if 0x660 ≤ n ∧ n ≤ 0x669 then some (n - 0x660)
  else if 0x6F0 ≤ n ∧ n ≤ 0x6F9 then some (n - 0x6F0)
  else if 0x966 ≤ n ∧ n ≤ 0x96F then some (n - 0x966)
  else if 0xFF10 ≤ n ∧ n ≤ 0xFF19 then some (n - 0xFF10)
  else none

/-- Model of Python `str.isdigit` for single characters: true on decimal digits
(category Nd) and on digit-property characters that are not decimal, such as
superscripts and subscripts, for which `int(ch)` raises. -/
def charIsDigit (c : Char) : Bool :=
  (charDecimalValue c).isSome ||
    (let n := c.toNat
     n = 0xB2 || n = 0xB3 || n = 0xB9 ||
       (decide (0x2070 ≤ n) && decide (n ≤ 0x2079)) ||
       (decide (0x2080 ≤ n) && decide (n ≤ 0x2089)))

/-- Model of Python `int(ch)` on a single character: succeeds exactly on
decimal-digit (Nd) characters, returning the digit value. -/
def pyIntOfChar (c : Char) : Option Int :=
  (charDecimalValue c).map Int.ofNat

/-- `unicode_digits_to_ascii` (source lines 65-76): walk the text; for each
character with `isdigit`, try `int(ch)`; keep the value when the conversion
succeeds and `0 <= v <= 9`, emitting the corresponding ASCII digit. -/
def unicode_digits_to_ascii (s : String) : String :=
  String.mk (s.data.filterMap (fun ch =>
    if charIsDigit ch then
      match pyIntOfChar ch with
      | some v => if 0 ≤ v ∧ v ≤ 9 then some (Char.ofNat (v.toNat + 48)) else none
      | none => none
    else none))

/-- The five characters of `NBSP_SET` (source line 50), replaced by a space. -/
def nbspChar (c : Char) : Bool :=
  let n := c.toNat
  n = 0xA0 || n = 0x2007 || n = 0x202F || n = 0x2009 || n = 0x200B

/-- The five characters of `UNICODE_DASHES` (source line 49), replaced by `-`. -/
def dashChar (c : Char) : Bool :=
  let n := c.toNat
  n = 0x2010 || n = 0x2011 || n = 0x2012 || n = 0x2013 || n = 0x2014

/-- The character class of the run-collapsing regex `[ \t\r\f\v]+`
(source line 61): space, tab, carriage return, form feed, vertical tab. -/
def collChar (c : Char) : Bool :=
  let n := c.toNat
  n = 32 || n = 9 || n = 13 || n = 12 || n = 11

/-- One pass of `re.sub(r"[ \t\r\f\v]+", " ", s)`: the boolean records whether
the previous character was inside a collapsed run. -/
def collapseAux : Bool → List Char → List Char
  | _, [] => []
  | prev, c :: cs =>
    if collChar c then
      if prev then collapseAux true cs else ' ' :: collapseAux true cs
    else c :: collapseAux false cs

/-- `normalize_separators` (source lines 53-62): NBSP-type characters to space,
Unicode dashes to hyphen, then collapse `[ \t\r\f\v]+` runs to one space. -/
def normalize_separators (s : String) : String :=
  if s = "" then s
  else
    let cs1 := s.data.map (fun c => if nbspChar c then ' ' else c)
    let cs2 := cs1.map (fun c => if dashChar c then '-' else c)
    String.mk (collapseAux false cs2)

/-- Core of `normalize_separators` without the redundant empty-string guard. -/
def normCore (cs : List Char) : List Char :=
  collapseAux false ((cs.map (fun c => if nbspChar c then ' ' else c)).map
    (fun c => if dashChar c then '-' else c))

/-- Model of the Unicode whitespace set matched by `\s` in Python regexes. -/
def pyIsSpace (c : Char) : Bool :=
  let n := c.toNat
  n = 32 || n = 9 || n = 10 || n = 13 || n = 11 || n = 12 ||
    (decide (28 ≤ n) && decide (n ≤ 31)) || n = 0x85 || n = 0xA0 || n = 0x1680 ||
    (decide (0x2000 ≤ n) && decide (n ≤ 0x200A)) ||
    n = 0x2028 || n = 0x2029 || n = 0x202F || n = 0x205F || n = 0x3000

/-- A character is a decimal digit (regex `\d` under Python's Unicode mode). -/
def isNd (c : Char) : Bool := (charDecimalValue c).isSome

/-- The character class `[\d\-\s_./]` in the NAS pattern (source line 101). -/
def nasClass (c : Char) : Bool :=
  isNd c || c.toNat = 45 || pyIsSpace c || c.toNat = 95 || c.toNat = 46 || c.toNat = 47

/-- Length of the maximal prefix of `cs` inside `nasClass`, capped at `cap`. -/
def runLenC : List Char → Nat → Nat
  | _, 0 => 0
  | [], _ + 1 => 0
  | c :: cs, cap + 1 => if nasClass c then runLenC cs cap + 1 else 0

/-- Backtracking of the greedy `{7,24}` quantifier: try middle length `m`
descending; succeed at the largest `m ≥ 7` whose following character (the
closing `\d`) is a decimal digit. -/
def nasTryMid (rest : List Char) : Nat → Option Nat
  | 0 => none
  | m + 1 =>
    if m + 1 < 7 then none
    else
      match rest.get? (m + 1) with
      | some d => if isNd d then some (m + 1) else nasTryMid rest m
      | none => nasTryMid rest m

/-- Whether `cs` starts with nine decimal digits (the `\d{9}` alternative). -/
def nineDigits (cs : List Char) : Bool :=
  decide (9 ≤ cs.length) && (cs.take 9).all isNd

/-- Length of the match of `(\d[\d\-\s_./]{7,24}\d)|(\d{9})` anchored at the
head of `cs`, following Python's leftmost/greedy/first-alternative semantics. -/
def nasMatchLen (cs : List Char) : Option Nat :=
  match cs with
  | [] => none
  | c0 :: rest =>
    if !isNd c0 then none
    else
      match nasTryMid rest (min (runLenC rest 24) 24) with
      | some m => some (m + 2)
      | none => if nineDigits (c0 :: rest) then some 9 else none

/-- `finditer` over the NAS pattern: scan left to right, non-overlapping,
yielding each `m.group(0)` text. -/
def nasScan : List Char → List String
  | [] => []
  | c :: cs =>
    match h : nasMatchLen (c :: cs) with
    | some L => String.mk ((c :: cs).take L) :: nasScan ((c :: cs).drop L)
    | none => nasScan cs
termination_by cs => cs.length
decreasing_by
  · have h2 : 2 ≤ L := by
      unfold nasMatchLen at h
      simp only at h
      split at h
      · exact absurd h (by simp)
      · split at h
        · simp only [Option.some.injEq] at h
          omega
        · split at h
          · simp only [Option.some.injEq] at h
            omega
          · exact absurd h (by simp)
    simp only [List.length_drop, List.length_cons]
    omega
  · simp

/-- A detector (source lines 81-93): a name, the compiled pattern's `finditer`
semantics as a function from text to raw match texts, and an optional
normalizer.  Immutable once constructed. -/
structure Detector where
  name : String
  matcher : String → List String
  normalizer : Option (String → Option String)
  desc : String

/-- `Detector.find` (source lines 88-93): for each raw match apply the
normalizer if present (else pass the raw text through) and yield only truthy
(non-empty) results. -/
def Detector.find (d : Detector) (text : String) : List String :=
  (d.matcher text).filterMap (fun raw =>
    match d.normalizer with
    | some f =>
      match f raw with
      | some v => if v = "" then none else some v
      | none => none
    | none => if raw = "" then none else some raw)

/-- The `_norm` closure of `make_nas_detector` (source lines 103-107): fold to
digits; exactly nine digits formats as `DDD-DDD-DDD`, anything else rejects. -/
def nasNorm (s : String) : Option String :=
  let digits := unicode_digits_to_ascii s
  if digits.length = 9 then
    some (String.mk (digits.data.take 3 ++ '-' :: (digits.data.drop 3).take 3 ++
      '-' :: (digits.data.drop 6).take 3))
  else none

/-- `make_nas_detector` (source lines 96-114). -/
def make_nas_detector : Detector :=
  { name := "NAS"
    matcher := fun s => nasScan s.data
    normalizer := some nasNorm
    desc := "Canadian SIN ###-###-### (separators and unicode digits accepted)." }

/-- Semi-structured document tree: JSON-like values as stored in `_source`. -/
inductive JValue where
  | vnull
  | vbool (b : Bool)
  | vint (n : Int)
  | vstr (s : String)
  | vlist (xs : List JValue)
  | vmap (m : List (String × JValue))

/-- First-match association-list lookup, modelling Python dict indexing. -/
def lookupAssocL {α : Type} (m : List (String × α)) (k : String) : Option α :=
  match m with
  | [] => none
  | (k2, v) :: rest => if k2 = k then some v else lookupAssocL rest k

/-- Whether the value is Python `None` (identity check `is not None`). -/
def JValue.isNull : JValue → Bool
  | .vnull => true
  | _ => false

/-- Python truthiness of a JSON-like value. -/
def truthy : JValue → Bool
  | .vnull => false
  | .vbool b => b
  | .vint n => n ≠ 0
  | .vstr s => s ≠ ""
  | .vlist xs => !xs.isEmpty
  | .vmap m => !m.isEmpty

/-- Model of Python `str()` on a JSON-like value.  Containers are rendered
opaquely: no claim depends on the exact `repr` text of a list or dict, only on
it being non-empty, which `repr` of any container is. -/
def pyStr : JValue → String
  | .vnull => "None"
  | .vbool b => if b then "True" else "False"
  | .vint n => toString n
  | .vstr s => s
  | .vlist _ => "[...]"
  | .vmap _ => "\x7b...\x7d"

/-- Python `"x.y".split(".")` on a character list: `""` splits to `[""]`,
adjacent dots produce empty segments. -/
def splitDotsList : List Char → List (List Char)
  | [] => [[]]
  | c :: cs =>
    if c = '.' then [] :: splitDotsList cs
    else
      match splitDotsList cs with
      | [] => [[c]]
      | g :: gs => (c :: g) :: gs

/-- Python `s.split(".")`. -/
def splitDots (s : String) : List String :=
  (splitDotsList s.data).map String.mk

/-- The dotted-path walk shared by `get_text_from_source` and
`get_path_virtual`: descend through nested dicts, `none` as soon as the
current value is not a dict or the key is missing. -/
def walkPath : JValue → List String → Option JValue
  | cur, [] => some cur
  | cur, p :: ps =>
    match cur with
    | .vmap m =>
      match lookupAssocL m p with
      | some v => walkPath v ps
      | none => none
    | _ => none

/-- `get_text_from_source` (source lines 248-261): return `str(src[content_field])`
when the key is present with a non-`None` value; otherwise, when `alt_field` is
truthy, walk its dotted path and return the stringified value if truthy;
otherwise the empty string. -/
def get_text_from_source (src : List (String × JValue)) (content_field : String)
    (alt_field : Option String) : String :=
  match lookupAssocL src content_field with
  | some v =>
    if !v.isNull then pyStr v
    else altTextLookup src alt_field
  | none => altTextLookup src alt_field
where
  /-- The fallback branch of `get_text_from_source` (source lines 251-260). -/
  altTextLookup (src : List (String × JValue)) (alt_field : Option String) : String :=
    match alt_field with
    | some a =>
      if a = "" then ""
      else
        match walkPath (.vmap src) (splitDots a) with
        | some cur => if truthy cur then pyStr cur else ""
        | none => ""
    | none => ""

/-- `get_path_virtual` (source lines 264-271): walk the dotted path field;
missing at any segment gives `""`, otherwise `str(cur)` (no truthiness test). -/
def get_path_virtual (src : List (String × JValue)) (path_field : String) : String :=
  match walkPath (.vmap src) (splitDots path_field) with
  | some cur => pyStr cur
  | none => ""

/-- `extract_from_text` (source lines 274-282): separator-normalize once, then
collect `(detector name, value)` pairs in detector order, match order within. -/
def extract_from_text (text : String) (detectors : List Detector) :
    List (String × String) :=
  if text = "" then []
  else
    let t := normalize_separators text
    detectors.flatMap (fun det => (det.find t).map (fun v => (det.name, v)))

/-- Python `str.lower` restricted to ASCII (detector names are ASCII). -/
def pyLower (s : String) : String := String.mk (s.data.map Char.toLower)

/-- `target_field` (source lines 301-310): explicit field map first, then the
lower-cased space-to-underscore name, with the `nas -> nas_norm` special case,
else the default prefix (when truthy) prepended. -/
def target_field (detector_name : String) (fmap : List (String × String))
    (pre : String) : String :=
  match lookupAssocL fmap detector_name with
  | some v => v
  | none =>
    let field := String.mk ((pyLower detector_name).data.map
      (fun c => if c = ' ' then '_' else c))
    if field = "nas" then "nas_norm"
    else if pre ≠ "" then pre ++ field else field

/-- Append a value to a per-field list only if absent (source lines 443-445). -/
def addValue (vs : List String) (v : String) : List String :=
  if vs.contains v then vs else vs ++ [v]

/-- `field_to_values.setdefault(field, [])` followed by append-if-absent, on an
insertion-ordered dict modelled as an association list. -/
def addPair (acc : List (String × List String)) (f v : String) :
    List (String × List String) :=
  match acc with
  | [] => [(f, [v])]
  | (g, vs) :: rest =>
    if g = f then (g, addValue vs v) :: rest else (g, vs) :: addPair rest f v

/-- The per-document grouping loop of `main` (source lines 439-445). -/
def field_to_values (fmap : List (String × String)) (pre : String)
    (pairs : List (String × String)) : List (String × List String) :=
  pairs.foldl (fun acc p => addPair acc (target_field p.1 fmap pre) p.2) []

/-- A CSV report row (header `detector,value,path,doc_id`, source line 395). -/
structure Row where
  detector : String
  value : String
  path : String
  doc_id : String
deriving DecidableEq, Repr

/-- The run-scoped dedupe key `(det_name, value, path)` (source line 429). -/
abbrev CsvKey := String × String × String

/-- The CSV-writing loop of `main` (source lines 426-434): with dedupe on,
skip (and do not count) rows whose key is in `seen_csv`; otherwise write the
row, extending `seen_csv` only when dedupe is on. -/
def csvEmit (dedupe : Bool) (path id : String) :
    List CsvKey → List (String × String) → List Row × List CsvKey
  | seen, [] => ([], seen)
  | seen, (d, v) :: rest =>
    if dedupe && seen.contains (d, v, path) then csvEmit dedupe path id seen rest
    else
      let seen1 := if dedupe then (d, v, path) :: seen else seen
      let out := csvEmit dedupe path id seen1 rest
      (⟨d, v, path, id⟩ :: out.1, out.2)

/-- The configuration surface of `main` consumed by the per-document loop. -/
structure Config where
  content_field : String
  alt_content_field : String
  path_field : String
  dedupe : Bool
  apply_updates : Bool
  fmap : List (String × String)
  field_pre : String

/-- One hit of the scroll stream: `hit.get("_id", "")` and
`hit.get("_source") or {}` (source lines 417-418). -/
structure Hit where
  id : String
  source : List (String × JValue)

/-- Result of processing one hit: rows written, updated dedupe state, and the
queued bulk update operation, if any. -/
structure DocOut where
  rows : List Row
  seen : List CsvKey
  update : Option (String × List (String × List String))
deriving Repr

/-- The body of the per-hit loop of `main` (source lines 415-462), minus the
bulk buffering: empty text skips the document; rows are emitted before the
update is considered; the update is queued only when updates are enabled, the
document produced findings, and its id is non-empty. -/
def processDoc (cfg : Config) (detectors : List Detector) (seen : List CsvKey)
    (hit : Hit) : DocOut :=
  let text := get_text_from_source hit.source cfg.content_field
    (some cfg.alt_content_field)
  if text = "" then ⟨[], seen, none⟩
  else
    let path := get_path_virtual hit.source cfg.path_field
    let pairs := extract_from_text text detectors
    let emitted := csvEmit cfg.dedupe path hit.id seen pairs
    let upd :=
      if cfg.apply_updates && !pairs.isEmpty then
        let fv := field_to_values cfg.fmap cfg.field_pre pairs
        if !fv.isEmpty then
          if hit.id = "" then none else some (hit.id, fv)
        else none
      else none
    ⟨emitted.1, emitted.2, upd⟩

/-- Whole-run accumulator of `main`: `seen_csv`, the written rows, the
`pairs_count` counter and the queued update operations, in order. -/
structure RunState where
  seen : List CsvKey
  rows : List Row
  pairs_count : Nat
  updates : List (String × List (String × List String))
  docs_count : Nat
deriving Repr

/-- One iteration of the per-hit loop of `main` at the run level. -/
def runStep (cfg : Config) (detectors : List Detector) (st : RunState)
    (hit : Hit) : RunState :=
  let out := processDoc cfg detectors st.seen hit
  { seen := out.seen
    rows := st.rows ++ out.rows
    pairs_count := st.pairs_count + out.rows.length
    updates := st.updates ++ (match out.update with | some u => [u] | none => [])
    docs_count := st.docs_count + 1 }

/-- The whole run of `main` over the hit stream (source lines 414-469). -/
def runMain (cfg : Config) (detectors : List Detector) (hits : List Hit) :
    RunState :=
  hits.foldl (runStep cfg detectors) ⟨[], [], 0, [], 0⟩

/-- One parsed scroll response: `data.get("_scroll_id")` and
`data.get("hits", {}).get("hits", [])` (source lines 202-203, 217-218). -/
structure ScrollResp where
  scroll_id : Option String
  hits : List Hit

/-- Python truthiness of the optional scroll token (`not scroll_id`). -/
def optStrTruthy : Option String → Bool
  | none => false
  | some s => s ≠ ""

/-- The loop-exit test of `search_scroll` (source line 207):
`not hits or not scroll_id`. -/
def scrollStop (r : ScrollResp) : Bool :=
  r.hits.isEmpty || !optStrTruthy r.scroll_id

/-- `ESClient.search_scroll` (source lines 195-220) over an abstract store:
`store k` is the response to the `k`-th request of the session (`store 0` the
initial search, `store (k+1)` the `k`-th cursor continuation).  Yield the
batch, then continue only while the last response had both a non-empty batch
and a truthy cursor token.  `fuel` bounds the number of requests so that the
generator is a total function; the theorems show the result is independent of
any sufficiently large fuel. -/
def scrollRun (store : Nat → ScrollResp) : Nat → Nat → List Hit
  | 0, _ => []
  | fuel + 1, k =>
    let r := store k
    r.hits ++ (if scrollStop r then [] else scrollRun store fuel (k + 1))

/-- Concatenation of the hit batches of responses `j, j+1, ..., j+k-1`. -/
def collectBatches (store : Nat → ScrollResp) : Nat → Nat → List Hit
  | _, 0 => []
  | j, k + 1 => (store j).hits ++ collectBatches store (j + 1) k

/-- An HTTP response as seen by `ESClient.bulk`, with the body already parsed
as JSON (transport and JSON decoding are external collaborators). -/
structure HttpResponse where
  status : Nat
  body : JValue

/-- Dict access `j.get(k)` on a JSON value. -/
def jget (j : JValue) (k : String) : Option JValue :=
  match j with
  | .vmap m => lookupAssocL m k
  | _ => none

/-- `any(v.get("error") for v in it.values())` (source line 239). -/
def itemHasError (it : JValue) : Bool :=
  match it with
  | .vmap m => m.any (fun kv => truthy ((jget kv.2 "error").getD .vnull))
  | _ => false

/-- The list elements of a JSON value (`data.get("items", [])` iteration). -/
def jItems (j : JValue) : List JValue :=
  match jget j "items" with
  | some (.vlist xs) => xs
  | _ => []

/-- `ESClient.bulk` (source lines 222-243): `requests.raise_for_status` raises
exactly for 4xx/5xx; otherwise the parsed body is returned, with the first
five error-carrying items collected as diagnostics when the top-level
`errors` flag is truthy.  No resubmission of failed items happens here. -/
def ESClient.bulk (resp : HttpResponse) : Except Nat (JValue × List JValue) :=
  if 400 ≤ resp.status ∧ resp.status < 600 then .error resp.status
  else
    let data := resp.body
    let diags :=
      if truthy ((jget data "errors").getD .vnull) then
        ((jItems data).filter itemHasError).take 5
      else []
    .ok (data, diags)

/-- The `flags` value of a YAML detector item: a string or a list of strings. -/
inductive YFlags where
  | ystr (s : String)
  | ylist (ss : List String)

/-- One YAML detector item as a record of its recognized keys; `none` models a
missing key (`item["name"]` and `item["regex"]` raise `KeyError` when absent,
the others are read with `.get`). -/
structure YamlItem where
  name : Option String
  regex : Option String
  yflags : Option YFlags
  normalize : Option String
  desc : Option String

/-- Outcome of the `import yaml` / `yaml.safe_load` preamble of
`load_detectors_from_yaml`: the library may be missing, the file may fail to
parse, or a list of items is produced. -/
inductive YamlLoadResult where
  | noLib
  | parseError
  | parsed (items : List YamlItem)

/-- Exceptions that escape `load_detectors_from_yaml` and abort the run. -/
inductive LoadError where
  | yamlError
  | keyError (k : String)
deriving DecidableEq, Repr

/-- Python `str.upper` restricted to ASCII. -/
def pyUpper (s : String) : String := String.mk (s.data.map Char.toUpper)

/-- `flags_map.get(fl.upper(), 0)` (source lines 143-154) with the numeric
values of `re.IGNORECASE`, `re.MULTILINE`, `re.DOTALL`, `re.VERBOSE`. -/
def flagsMapGet (s : String) : Nat :=
  let u := pyUpper s
  if u = "IGNORECASE" then 2
  else if u = "MULTILINE" then 8
  else if u = "DOTALL" then 16
  else if u = "VERBOSE" then 64
  else 0

/-- The flags accumulation loop of `load_detectors_from_yaml`. -/
def itemFlags (yflags : Option YFlags) : Nat :=
  match yflags with
  | none => 0
  | some (.ystr s) => Nat.lor 0 (flagsMapGet s)
  | some (.ylist ss) => ss.foldl (fun a s => Nat.lor a (flagsMapGet s)) 0

/-- The per-item body of `load_detectors_from_yaml` (source lines 138-164):
`item["name"]` and `item["regex"]` raise on absence; the pattern is compiled
through the external `compile` oracle; only `normalize: nas` installs a
normalizer (the same nine-digit fold as the built-in), every other value of
`normalize` leaves the detector with no normalizer. -/
def loadItem (compile : String → Nat → String → List String) (item : YamlItem) :
    Except LoadError Detector :=
  match item.name with
  | none => .error (.keyError "name")
  | some name =>
    match item.regex with
    | none => .error (.keyError "regex")
    | some regex =>
      let flags := itemFlags item.yflags
      let normalizer : Option (String → Option String) :=
        if item.normalize = some "nas" then some nasNorm else none
      .ok { name := name
            matcher := compile regex flags
            normalizer := normalizer
            desc := item.desc.getD "" }

/-- `load_detectors_from_yaml` (source lines 117-165): a missing YAML library
returns the empty list (the run then keeps only the built-in detectors); a
parse failure of the file propagates as an exception; otherwise the items are
compiled in order, the first bad item aborting. -/
def load_detectors_from_yaml (compile : String → Nat → String → List String) :
    YamlLoadResult → Except LoadError (List Detector)
  | .noLib => .ok []
  | .parseError => .error .yamlError
  | .parsed items => items.mapM (loadItem compile)

/-- The detector-set construction of `main` (source lines 373-375): the
built-in NAS detector, extended by the YAML detectors when the option is
given; an exception from loading aborts the run. -/
def main_detectors (compile : String → Nat → String → List String)
    (yamlRes : Option YamlLoadResult) : Except LoadError (List Detector) :=
  match yamlRes with
  | none => .ok [make_nas_detector]
  | some res =>
    match load_detectors_from_yaml compile res with
    | .ok ds => .ok ([make_nas_detector] ++ ds)
    | .error e => .error e

/-- The rows a document would contribute with dedupe off: the reference row
stream used to state the report-writer properties. -/
def docAllRows (cfg : Config) (detectors : List Detector) (hit : Hit) : List Row :=
  let text := get_text_from_source hit.source cfg.content_field
    (some cfg.alt_content_field)
  if text = "" then []
  else
    (extract_from_text text detectors).map
      (fun p => ⟨p.1, p.2, get_path_virtual hit.source cfg.path_field, hit.id⟩)

/-- The dedupe key of a row: detector, value, path — the doc id is excluded. -/
def rowKey (r : Row) : CsvKey := (r.detector, r.value, r.path)

/-- Reference run-scoped dedupe on a flat row stream: keep a row exactly when
its key has not been seen before, in order. -/
def firstByKey (seen : List CsvKey) : List Row → List Row
  | [] => []
  | r :: rs =>
    if seen.contains (rowKey r) then firstByKey seen rs
    else r :: firstByKey (rowKey r :: seen) rs

/-- The seen-key set after consuming a row stream. -/
def seenAfter : List CsvKey → List Row → List CsvKey
  | seen, [] => seen
  | seen, r :: rs =>
    if seen.contains (rowKey r) then seenAfter seen rs
    else seenAfter (rowKey r :: seen) rs

/-- Reference first-occurrence dedupe of a value list: keep each value at its
first position and drop every later equal value. -/
def firstSeen : List String → List String
  | [] => []
  | v :: vs => v :: firstSeen (vs.filter (fun w => w ≠ v))
termination_by l => l.length
decreasing_by
  simp only [List.length_cons]
  exact Nat.lt_succ_of_le (List.length_filter_le _ _)

/-- The values among `pairs` whose detector resolves to target field `f`, in
order. -/
def projVals (fmap : List (String × String)) (pre : String)
    (pairs : List (String × String)) (f : String) : List String :=
  pairs.filterMap (fun p => if target_field p.1 fmap pre = f then some p.2 else none)

/-- Accumulate a value stream into one field's list, starting from the list a
dict lookup found (or `[]` when the key was absent), appending if absent. -/
def dedupeInto (o : Option (List String)) : List String → Option (List String)
  | [] => o
  | v :: l => dedupeInto (some (addValue (o.getD []) v)) l

theorem scrollRun_of_stop (store : Nat → ScrollResp) :
    ∀ (k fuel j : Nat), (∀ m, m < k → scrollStop (store (j + m)) = false) →
      scrollStop (store (j + k)) = true → k < fuel →
      scrollRun store fuel j = collectBatches store j (k + 1) := by
  intro k
  induction k with
  | zero =>
    intro fuel j _ hstop hfuel
    match fuel, hfuel with
    | f + 1, _ =>
      simp only [scrollRun, collectBatches]
      rw [Nat.add_zero] at hstop
      simp [hstop]
  | succ k ih =>
    intro fuel j hbefore hstop hfuel
    match fuel, hfuel with
    | f + 1, hfuel =>
      have h0 : scrollStop (store j) = false := by
        have := hbefore 0 (Nat.succ_pos k)
        simpa using this
      simp only [scrollRun, collectBatches, h0]
      have ih2 := ih f (j + 1)
        (fun m hm => by
          have := hbefore (m + 1) (Nat.succ_lt_succ hm)
          simpa [Nat.add_assoc, Nat.add_comm 1 m] using this)
        (by
          have : j + 1 + k = j + (k + 1) := by omega
          rw [this]; exact hstop)
        (by omega)
      rw [if_neg (by simp), ih2]
      rfl

/-- C6: the pagination sequence yields every hit of every batch up to and
including the first response satisfying the stop test (empty batch or missing
or empty cursor token), and it goes no further: with any sufficient fuel the
sequence equals exactly the concatenation of batches `0..n`, where `n` is the
first stopping response — in particular it ends on an empty batch even when a
cursor token is still present, and when no token is returned. -/
theorem C6_scroll_pagination (store : Nat → ScrollResp) (n fuel : Nat)
    (hbefore : ∀ m, m < n → scrollStop (store m) = false)
    (hstop : scrollStop (store n) = true) (hfuel : n < fuel) :
    scrollRun store fuel 0 = collectBatches store 0 (n + 1) := by
  have := scrollRun_of_stop store n fuel 0
    (fun m hm => by simpa using hbefore m hm)
    (by simpa using hstop) hfuel
  exact this

theorem C6_witness :
    scrollRun
      (fun k => if k = 0 then ⟨some "c", [⟨"1", []⟩]⟩ else ⟨some "c", []⟩) 5 0 =
      [⟨"1", []⟩] ∧
    (if (1 : Nat) = 0 then (⟨some "c", [⟨"1", []⟩]⟩ : ScrollResp)
      else ⟨some "c", []⟩).scroll_id = some "c" := by
  constructor
  · have h := C6_scroll_pagination
      (fun k => if k = 0 then ⟨some "c", [⟨"1", []⟩]⟩ else ⟨some "c", []⟩) 1 5
      (fun m hm => by
        have hm0 : m = 0 := by omega
        subst hm0
        rfl)
      (by rfl) (by omega)
    exact h.trans rfl
  · rfl

/-- C7 amended: bulk submission raises a fatal error exactly on a 4xx/5xx
HTTP status (the `raise_for_status` contract) — not on every non-2xx status;
any other response is returned to the caller together with at most five
error-carrying items as diagnostics, and the run continues with no retry. -/
theorem C7_amended_bulk_errors (resp : HttpResponse) :
    (400 ≤ resp.status ∧ resp.status < 600 →
      ESClient.bulk resp = .error resp.status) ∧
    (¬(400 ≤ resp.status ∧ resp.status < 600) →
      ∃ diags, ESClient.bulk resp = .ok (resp.body, diags) ∧ diags.length ≤ 5) := by
  constructor
  · intro h
    simp [ESClient.bulk, h]
  · intro h
    refine ⟨if truthy ((jget resp.body "errors").getD .vnull) then
        ((jItems resp.body).filter itemHasError).take 5 else [], ?_, ?_⟩
    · simp only [ESClient.bulk, if_neg h]
    · split
      · rw [List.length_take]
        exact Nat.min_le_left _ _
      · simp

/-- C7 counterexample: a 302 response is not a 2xx response, yet `bulk` does
not raise — it returns the parsed body, refuting "fails exactly on non-2xx". -/
theorem C7_counterexample :
    ¬(200 ≤ 302 ∧ 302 ≤ 299) ∧
    ESClient.bulk ⟨302, .vmap []⟩ = .ok (.vmap [], []) := by
  constructor
  · omega
  · rfl

theorem C7_witness :
    ESClient.bulk ⟨500, .vmap []⟩ = .error 500 ∧
    ∃ diags,
      ESClient.bulk ⟨200, .vmap [("errors", .vbool true), ("items", .vlist [])]⟩ =
        .ok (.vmap [("errors", .vbool true), ("items", .vlist [])], diags) ∧
      diags.length ≤ 5 := by
  constructor
  · exact (C7_amended_bulk_errors ⟨500, .vmap []⟩).1 (by decide)
  · exact (C7_amended_bulk_errors
      ⟨200, .vmap [("errors", .vbool true), ("items", .vlist [])]⟩).2 (by decide)

/-- C9 counterexample: when the YAML file is unparseable the loading exception
propagates out of `main`'s detector construction — the run aborts instead of
proceeding with the built-in detector set. -/
theorem C9_detector_loading_counterexample :
    main_detectors (fun _ _ _ => []) (some .parseError) = .error .yamlError := rfl

/-- C9 amended: only a missing YAML library makes detector loading degrade to
the built-in detector set; unparseable detector definitions abort the run.  A
detector definition naming any normalizer other than `nas` (or none at all)
gets no normalizer, and a detector without a normalizer passes every non-empty
raw match through unchanged. -/
theorem C9_amended_detector_loading
    (compile : String → Nat → String → List String) :
    load_detectors_from_yaml compile .noLib = .ok [] ∧
    load_detectors_from_yaml compile .parseError = .error .yamlError ∧
    main_detectors compile (some .noLib) = .ok [make_nas_detector] ∧
    (∀ (item : YamlItem) (name regex : String),
      item.normalize ≠ some "nas" → item.name = some name →
      item.regex = some regex →
      loadItem compile item =
        .ok ⟨name, compile regex (itemFlags item.yflags), none,
          item.desc.getD ""⟩) ∧
    (∀ d : Detector, d.normalizer = none →
      ∀ t, d.find t = (d.matcher t).filter (fun v => v ≠ "")) := by
  refine ⟨rfl, rfl, rfl, ?_, ?_⟩
  · intro item name regex hn h1 h2
    unfold loadItem
    rw [h1, h2]
    simp only [if_neg hn]
  · intro d hd t
    simp only [Detector.find, hd]
    induction d.matcher t with
    | nil => rfl
    | cons a l ihl =>
      simp only [List.filterMap_cons, List.filter_cons]
      by_cases ha : a = ""
      · subst ha
        simpa using ihl
      · simp only [ha, if_false, decide_not]
        simp only [ihl]
        simp [ha]

theorem C9_witness :
    loadItem (fun _ _ _ => ["hit", ""])
        ⟨some "EMAIL", some "x@y", none, some "strip", none⟩ =
      .ok ⟨"EMAIL", (fun _ _ _ => ["hit", ""]) "x@y" 0, none, ""⟩ ∧
    Detector.find ⟨"EMAIL", fun _ => ["hit", ""], none, ""⟩ "text" = ["hit"] := by
  constructor
  · exact (C9_amended_detector_loading _).2.2.2.1 _ "EMAIL" "x@y" (by decide)
      rfl rfl
  · rw [(C9_amended_detector_loading (fun _ _ _ => ["hit", ""])).2.2.2.2
      ⟨"EMAIL", fun _ => ["hit", ""], none, ""⟩ rfl "text"]
    rfl

theorem csvEmit_id_rows (dedupe : Bool) (path i : String) :
    ∀ (pairs : List (String × String)) (seen : List CsvKey),
      (csvEmit dedupe path "" seen pairs).1 =
        ((csvEmit dedupe path i seen pairs).1.map fun r => { r with doc_id := "" }) ∧
      (csvEmit dedupe path "" seen pairs).2 = (csvEmit dedupe path i seen pairs).2 := by
  intro pairs
  induction pairs with
  | nil => exact fun seen => ⟨rfl, rfl⟩
  | cons p rest ih =>
    intro seen
    obtain ⟨d, v⟩ := p
    by_cases hc : (dedupe && seen.contains (d, v, path)) = true
    · simp only [csvEmit, hc, if_true]
      exact ih seen
    · simp only [csvEmit, hc, if_false, Bool.false_eq_true]
      have ih2 := ih (if dedupe then (d, v, path) :: seen else seen)
      exact ⟨by simp [ih2.1], ih2.2⟩

/-- C10: a hit whose document id is missing or empty (both surface as `""`
through `hit.get("_id", "")`) still has its report rows written — identical to
the rows of the same source under any id, except for the empty `doc_id`
column — and counted, with the same dedupe-state evolution; only the update
operation is suppressed.  The missing-id guard affects nothing but the update
path. -/
theorem C10_missing_id_rows (cfg : Config) (dets : List Detector)
    (seen : List CsvKey) (src : List (String × JValue)) (i : String)
    (st : RunState) :
    (processDoc cfg dets seen ⟨"", src⟩).update = none ∧
    (processDoc cfg dets seen ⟨"", src⟩).rows =
      ((processDoc cfg dets seen ⟨i, src⟩).rows.map fun r => { r with doc_id := "" }) ∧
    (processDoc cfg dets seen ⟨"", src⟩).seen =
      (processDoc cfg dets seen ⟨i, src⟩).seen ∧
    (runStep cfg dets st ⟨"", src⟩).pairs_count =
      st.pairs_count + (processDoc cfg dets st.seen ⟨"", src⟩).rows.length := by
  by_cases htext :
    get_text_from_source src cfg.content_field (some cfg.alt_content_field) = ""
  · refine ⟨?_, ?_, ?_, rfl⟩ <;> simp [processDoc, htext]
  · refine ⟨?_, ?_, ?_, rfl⟩
    · simp only [processDoc, htext, if_neg, if_false]
      simp
    · simp only [processDoc]
      rw [if_neg htext, if_neg htext]
      exact (csvEmit_id_rows cfg.dedupe _ i _ seen).1
    · simp only [processDoc]
      rw [if_neg htext, if_neg htext]
      exact (csvEmit_id_rows cfg.dedupe _ i _ seen).2

theorem nasNorm_ne_empty (s v : String) (h : nasNorm s = some v) : v ≠ "" := by
  simp only [nasNorm] at h
  split at h
  · simp only [Option.some.injEq] at h
    subst h
    intro hv
    have hd := congrArg String.data hv
    simp at hd
  · exact absurd h (by simp)

/-- C2: the national-ID normalizer folds the raw match to its digits; exactly
nine digits format as `DDD-DDD-DDD`, any other count yields nothing, so the
match contributes no finding — `Detector.find` on the built-in NAS detector is
exactly the normalizer filtered over the pattern's raw matches.  In particular
`"123 456 789"` normalizes to `"123-456-789"` and `"123-45"` to nothing. -/
theorem C2_nas_normalizer :
    (∀ s : String,
      ((unicode_digits_to_ascii s).length = 9 →
        nasNorm s = some (String.mk ((unicode_digits_to_ascii s).data.take 3 ++
          '-' :: ((unicode_digits_to_ascii s).data.drop 3).take 3 ++
          '-' :: ((unicode_digits_to_ascii s).data.drop 6).take 3))) ∧
      ((unicode_digits_to_ascii s).length ≠ 9 → nasNorm s = none)) ∧
    nasNorm "123 456 789" = some "123-456-789" ∧
    nasNorm "123-45" = none ∧
    (∀ t, make_nas_detector.find t = (nasScan t.data).filterMap nasNorm) := by
  refine ⟨?_, by decide, by decide, ?_⟩
  · intro s
    constructor
    · intro h9
      simp only [nasNorm]
      rw [if_pos h9]
    · intro hne
      simp only [nasNorm]
      rw [if_neg hne]
  · intro t
    simp only [Detector.find, make_nas_detector]
    induction nasScan t.data with
    | nil => rfl
    | cons a l ihl =>
      simp only [List.filterMap_cons]
      cases ha : nasNorm a with
      | none => simp [ha, ihl]
      | some v =>
        have hv := nasNorm_ne_empty a v ha
        simp [ha, hv, ihl]

theorem C2_witness :
    (unicode_digits_to_ascii "987 654 321").length = 9 ∧
    nasNorm "987 654 321" = some "987-654-321" ∧
    (unicode_digits_to_ascii "12 34").length ≠ 9 ∧
    nasNorm "12 34" = none := by
  refine ⟨by decide, ?_, by decide, ?_⟩
  · rw [(C2_nas_normalizer.1 "987 654 321").1 (by decide)]
    decide
  · exact (C2_nas_normalizer.1 "12 34").2 (by decide)

/-- C1 counterexample: with a primary field that is present but empty and an
alternate field holding text, the claim predicts the fallback value `"x"`, but
the code returns the present primary's stringification `""` — the fallback
runs only when the primary key is absent or its value is `None`, so the
document is then skipped even though the alternate field has text. -/
theorem C1_text_fallback_counterexample :
    get_text_from_source
        [("content", .vstr ""), ("attachment", .vmap [("content", .vstr "x")])]
        "content" (some "attachment.content") = "" ∧
    walkPath (.vmap [("content", .vstr ""), ("attachment", .vmap [("content", .vstr "x")])])
        (splitDots "attachment.content") = some (.vstr "x") ∧
    ("" : String) ≠ "x" := by
  refine ⟨rfl, rfl, by decide⟩

/-- C1 amended: the extraction text is the stringified primary field whenever
the primary key is present with a non-`None` value — even when that string is
empty, in which case no fallback happens and the document is skipped; the
dotted-path fallback applies only when the primary key is absent or `None`,
with a missing intermediate key at any segment (or an untruthy fallback value)
giving the empty string; a document whose resulting text is empty is skipped
entirely: no report rows, no dedupe-state change, no update operation. -/
theorem C1_amended_text_fallback_skip (src : List (String × JValue))
    (cf a : String) (v : JValue) (cfg : Config) (dets : List Detector)
    (seen : List CsvKey) (hit : Hit) :
    (lookupAssocL src cf = some v → v.isNull = false →
      get_text_from_source src cf (some a) = pyStr v) ∧
    ((lookupAssocL src cf = none ∨ lookupAssocL src cf = some .vnull) →
      a ≠ "" →
      get_text_from_source src cf (some a) =
        (match walkPath (.vmap src) (splitDots a) with
         | some cur => if truthy cur then pyStr cur else ""
         | none => "")) ∧
    (get_text_from_source hit.source cfg.content_field
        (some cfg.alt_content_field) = "" →
      processDoc cfg dets seen hit = ⟨[], seen, none⟩) := by
  refine ⟨?_, ?_, ?_⟩
  · intro h1 h2
    simp [get_text_from_source, h1, h2]
  · intro hor ha
    cases hor with
    | inl h =>
      simp only [get_text_from_source, h, get_text_from_source.altTextLookup]
      rw [if_neg ha]
    | inr h =>
      simp only [get_text_from_source, h, JValue.isNull, Bool.not_true,
        Bool.false_eq_true, if_false, get_text_from_source.altTextLookup]
      rw [if_neg ha]
  · intro htext
    simp [processDoc, htext]

theorem C1_witness :
    get_text_from_source [("content", .vstr "hello")] "content"
        (some "attachment.content") = "hello" ∧
    get_text_from_source [("a", .vmap [("b", .vstr "w")])] "content"
        (some "a.b") = "w" ∧
    processDoc ⟨"content", "attachment.content", "path.virtual", false, true,
        [], "pii."⟩ [] [] ⟨"1", []⟩ = ⟨[], [], none⟩ := by
  refine ⟨?_, ?_, ?_⟩
  · exact (C1_amended_text_fallback_skip [("content", .vstr "hello")] "content"
      "attachment.content" (.vstr "hello") ⟨"", "", "", false, false, [], ""⟩
      [] [] ⟨"", []⟩).1 rfl rfl
  · exact ((C1_amended_text_fallback_skip [("a", .vmap [("b", .vstr "w")])]
      "content" "a.b" .vnull ⟨"", "", "", false, false, [], ""⟩
      [] [] ⟨"", []⟩).2.1 (Or.inl rfl) (by decide)).trans rfl
  · exact (C1_amended_text_fallback_skip [] "" "" .vnull
      ⟨"content", "attachment.content", "path.virtual", false, true, [], "pii."⟩
      [] [] ⟨"1", []⟩).2.2 rfl

theorem charDecimalValue_le_nine (c : Char) (v : Nat)
    (h : charDecimalValue c = some v) : v ≤ 9 := by
  simp only [charDecimalValue] at h
  split_ifs at h <;>
    first
    | (simp only [Option.some.injEq] at h; omega)
    | simp at h

theorem digitFold_char (ch : Char) :
    (if charIsDigit ch then
      match pyIntOfChar ch with
      | some v => if 0 ≤ v ∧ v ≤ 9 then some (Char.ofNat (v.toNat + 48)) else none
      | none => none
    else none) = (charDecimalValue ch).map (fun v => Char.ofNat (v + 48)) := by
  cases hd : charDecimalValue ch with
  | none => simp [pyIntOfChar, hd]
  | some v =>
    have h9 := charDecimalValue_le_nine ch v hd
    have hdig : charIsDigit ch = true := by simp [charIsDigit, hd]
    simp only [pyIntOfChar, hd, hdig, Option.map_some, if_true, Option.map]
    have hcond : 0 ≤ Int.ofNat v ∧ Int.ofNat v ≤ 9 :=
      ⟨Int.ofNat_nonneg v, by simpa using Int.ofNat_le.mpr h9⟩
    rw [if_pos hcond]
    simp

theorem unicode_digits_to_ascii_data (s : String) :
    (unicode_digits_to_ascii s).data =
      (s.data.filter fun c => (charDecimalValue c).isSome).map
        (fun c => Char.ofNat ((charDecimalValue c).getD 0 + 48)) := by
  show s.data.filterMap _ = _
  induction s.data with
  | nil => rfl
  | cons c cs ih =>
    rw [List.filterMap_cons, digitFold_char]
    cases hd : charDecimalValue c with
    | none => simp [hd, ih]
    | some v => simp [hd, ih]

theorem ascii_digit_char_bound (v : Nat) (h : v ≤ 9) :
    ('0' ≤ Char.ofNat (v + 48) && Char.ofNat (v + 48) ≤ '9') = true := by
  interval_cases v <;> decide

/-- C3: the digit-folding function emits only ASCII digits `0-9`; its length
is the number of input characters classified as decimal digits; and its
content is exactly the decimal-digit characters of the input, in input order,
each mapped to its ASCII value — everything else, including digit-like
characters that are not decimal digits and non-digits interleaved with
digits, is discarded. -/
theorem C3_unicode_digits_fold (s : String) :
    ((unicode_digits_to_ascii s).data.all fun c => '0' ≤ c && c ≤ '9') = true ∧
    (unicode_digits_to_ascii s).length =
      s.data.countP (fun c => (charDecimalValue c).isSome) ∧
    (unicode_digits_to_ascii s).data =
      (s.data.filter fun c => (charDecimalValue c).isSome).map
        (fun c => Char.ofNat ((charDecimalValue c).getD 0 + 48)) := by
  refine ⟨?_, ?_, unicode_digits_to_ascii_data s⟩
  · rw [List.all_eq_true]
    intro c hc
    rw [unicode_digits_to_ascii_data s] at hc
    obtain ⟨x, hx, hcx⟩ := List.mem_map.mp hc
    have hxs := (List.mem_filter.mp hx).2
    obtain ⟨v, hv⟩ := Option.isSome_iff_exists.mp (by simpa using hxs)
    subst hcx
    rw [hv]
    exact ascii_digit_char_bound v (charDecimalValue_le_nine x v hv)
  · show (unicode_digits_to_ascii s).data.length = _
    rw [unicode_digits_to_ascii_data s, List.length_map]
    exact (List.countP_eq_length_filter _ _).symm

theorem mk_cons_ne_empty (c : Char) (cs : List Char) : String.mk (c :: cs) ≠ "" := by
  intro h
  have hd := congrArg String.data h
  simp at hd

theorem collChar_not_nbsp_dash (c : Char) (h : collChar c = true) :
    nbspChar c = false ∧ dashChar c = false := by
  simp only [collChar, nbspChar, dashChar, Bool.or_eq_true, decide_eq_true_eq,
    Bool.or_eq_false_iff, decide_eq_false_iff_not] at h ⊢
  omega

theorem collapseAux_id (cs : List Char) (h : ∀ c ∈ cs, collChar c = false) :
    ∀ prev, collapseAux prev cs = cs := by
  induction cs with
  | nil => intro prev; rfl
  | cons c rest ih =>
    intro prev
    simp only [collapseAux, h c (by simp), Bool.false_eq_true, if_false]
    rw [ih (fun x hx => h x (by simp [hx])) false]

theorem collapseAux_all_coll (cs : List Char) (h : ∀ c ∈ cs, collChar c = true) :
    collapseAux true cs = [] ∧ (cs ≠ [] → collapseAux false cs = [' ']) := by
  induction cs with
  | nil => exact ⟨rfl, fun hne => absurd rfl hne⟩
  | cons c rest ih =>
    have hc := h c (by simp)
    have ih2 := ih (fun x hx => h x (by simp [hx]))
    refine ⟨?_, ?_⟩
    · simp only [collapseAux, hc, if_true]
      exact ih2.1
    · intro _
      simp only [collapseAux, hc, if_true]
      rw [ih2.1]
      simp

theorem collapseAux_append_newline (xs ys : List Char) :
    ∀ prev, collapseAux prev (xs ++ '\n' :: ys) =
      collapseAux prev xs ++ '\n' :: collapseAux false ys := by
  induction xs with
  | nil =>
    intro prev
    have hnl : collChar '\n' = false := by decide
    simp [collapseAux, hnl]
  | cons c rest ih =>
    intro prev
    by_cases hc : collChar c = true
    · simp only [List.cons_append, collapseAux, hc, if_true, List.append_eq]
      by_cases hp : prev = true
      · rw [hp]
        simp only [if_true, ih true]
      · simp only [hp, if_false, ih true, List.cons_append]
        simp
    · simp only [List.cons_append, collapseAux, hc, Bool.false_eq_true, if_false,
        List.append_eq]
      rw [ih false]

theorem normalize_eq_core (s : String) :
    normalize_separators s = String.mk (normCore s.data) := by
  by_cases hs : s = ""
  · subst hs; rfl
  · simp only [normalize_separators, if_neg hs, normCore]

/-- C8 counterexample: the carriage return `\r` is a newline character that is
in none of the listed sets (not an NBSP-type space, not a dash variant, and
not named by the claim's space/tab/VT/FF collapse list), yet
`normalize_separators` rewrites it to a space instead of leaving it in place:
the collapse class of the code is `[ \t\r\f\v]`, which contains `\r`. -/
theorem C8_normalize_counterexample :
    normalize_separators "\r" = " " ∧ ("\r" : String) ≠ " " ∧
    nbspChar '\r' = false ∧ dashChar '\r' = false := by
  refine ⟨rfl, by decide, rfl, rfl⟩

/-- C8 amended: `normalize_separators` rewrites exactly the listed separator
characters — each NBSP/figure/narrow/thin/zero-width space becomes an ASCII
space, each Unicode dash variant becomes an ASCII hyphen, and maximal runs of
the class consisting of space, tab, carriage return, form feed and vertical
tab (so `\r` included) collapse to one ASCII space; every character outside
those sets is left unchanged in place — in particular the text on either side
of a line feed `\n` is normalized independently with the `\n` kept. -/
theorem C8_amended_normalize_separators :
    (∀ s : String,
      (∀ c ∈ s.data, nbspChar c = false ∧ dashChar c = false ∧ collChar c = false) →
      normalize_separators s = s) ∧
    (∀ c : Char, nbspChar c = true → normalize_separators (String.mk [c]) = " ") ∧
    (∀ c : Char, dashChar c = true → normalize_separators (String.mk [c]) = "-") ∧
    (∀ cs : List Char, cs ≠ [] → (∀ c ∈ cs, collChar c = true) →
      normalize_separators (String.mk cs) = " ") ∧
    (∀ s t : String, normalize_separators (s ++ "\n" ++ t) =
      normalize_separators s ++ "\n" ++ normalize_separators t) := by
  have hmaps : ∀ (l : List Char), (∀ c ∈ l, nbspChar c = false ∧ dashChar c = false) →
      (l.map (fun c => if nbspChar c then ' ' else c)).map
        (fun c => if dashChar c then '-' else c) = l := by
    intro l hl
    induction l with
    | nil => rfl
    | cons c rest ih =>
      simp only [List.map_cons, (hl c (by simp)).1, (hl c (by simp)).2,
        Bool.false_eq_true, if_false]
      rw [ih (fun x hx => hl x (by simp [hx]))]
  refine ⟨?_, ?_, ?_, ?_, ?_⟩
  · intro s h
    rw [normalize_eq_core, normCore,
      hmaps s.data (fun c hc => ⟨(h c hc).1, (h c hc).2.1⟩),
      collapseAux_id s.data (fun c hc => (h c hc).2.2) false]
  · intro c hc
    rw [normalize_eq_core]
    show String.mk (collapseAux false (([c].map _).map _)) = " "
    simp only [List.map_cons, List.map_nil, hc, if_true]
    have : dashChar ' ' = false := by decide
    simp only [this, Bool.false_eq_true, if_false]
    have hsp : collChar ' ' = true := by decide
    simp [collapseAux, hsp]
  · intro c hc
    have hnb : nbspChar c = false := by
      simp only [nbspChar, dashChar, Bool.or_eq_true, decide_eq_true_eq,
        Bool.or_eq_false_iff, decide_eq_false_iff_not] at hc ⊢
      omega
    rw [normalize_eq_core]
    show String.mk (collapseAux false (([c].map _).map _)) = "-"
    simp only [List.map_cons, List.map_nil, hnb, Bool.false_eq_true, if_false,
      hc, if_true]
    have hdash : collChar '-' = false := by decide
    simp [collapseAux, hdash]
  · intro cs hne hall
    rw [normalize_eq_core]
    show String.mk (collapseAux false ((cs.map _).map _)) = " "
    rw [hmaps cs (fun c hc => collChar_not_nbsp_dash c (hall c hc))]
    rw [(collapseAux_all_coll cs hall).2 hne]
  · intro s t
    rw [normalize_eq_core, normalize_eq_core, normalize_eq_core]
    apply String.ext
    have hdata : (s ++ "\n" ++ t).data = s.data ++ '\n' :: t.data := by
      rw [String.data_append, String.data_append, List.append_assoc]
      rfl
    show normCore (s ++ "\n" ++ t).data = _
    rw [hdata, String.data_append, String.data_append, List.append_assoc]
    have hnb : nbspChar '\n' = false := by decide
    have hdash : dashChar '\n' = false := by decide
    simp only [normCore, List.map_append, List.map_cons, hnb, hdash,
      Bool.false_eq_true, if_false]
    rw [collapseAux_append_newline _ _ false]
    rfl

theorem C8_witness :
    normalize_separators "ab" = "ab" ∧
    normalize_separators (String.mk [Char.ofNat 0xA0]) = " " ∧
    normalize_separators (String.mk [Char.ofNat 0x2013]) = "-" ∧
    normalize_separators (String.mk [' ', '\t', '\r']) = " " ∧
    normalize_separators ("a" ++ "\n" ++ "b") =
      normalize_separators "a" ++ "\n" ++ normalize_separators "b" := by
  refine ⟨C8_amended_normalize_separators.1 "ab" (by decide),
    C8_amended_normalize_separators.2.1 _ (by decide),
    C8_amended_normalize_separators.2.2.1 _ (by decide),
    C8_amended_normalize_separators.2.2.2.1 [' ', '\t', '\r'] (by decide) (by decide),
    C8_amended_normalize_separators.2.2.2.2 "a" "b"⟩

theorem lookup_addPair (acc : List (String × List String)) (f v g : String) :
    lookupAssocL (addPair acc f v) g =
      if g = f then some (addValue ((lookupAssocL acc f).getD []) v)
      else lookupAssocL acc g := by
  induction acc with
  | nil =>
    by_cases hg : g = f
    · subst hg
      simp [addPair, lookupAssocL, addValue]
    · simp [addPair, lookupAssocL, hg, show ¬(f = g) from fun h => hg h.symm]
  | cons p rest ih =>
    obtain ⟨k, vs⟩ := p
    by_cases hk : k = f
    · subst hk
      by_cases hg : g = k
      · subst hg
        simp [addPair, lookupAssocL]
      · simp [addPair, lookupAssocL, hg, show ¬(k = g) from fun h => hg h.symm]
    · by_cases hg : k = g
      · subst hg
        simp [addPair, lookupAssocL, hk, show ¬(k = f) from hk]
      · simp [addPair, lookupAssocL, hk, hg, ih]

theorem lookup_field_to_values_aux (fmap : List (String × String)) (pre : String)
    (f : String) :
    ∀ (pairs : List (String × String)) (acc : List (String × List String)),
      lookupAssocL
          (pairs.foldl (fun a p => addPair a (target_field p.1 fmap pre) p.2) acc)
          f =
        dedupeInto (lookupAssocL acc f) (projVals fmap pre pairs f) := by
  intro pairs
  induction pairs with
  | nil => intro acc; rfl
  | cons p rest ih =>
    intro acc
    obtain ⟨n, v⟩ := p
    simp only [List.foldl_cons, projVals, List.filterMap_cons]
    by_cases ht : target_field n fmap pre = f
    · rw [if_pos ht]
      have ih2 := ih (addPair acc (target_field n fmap pre) v)
      simp only [projVals] at ih2
      rw [ih2, lookup_addPair, if_pos ht.symm, ht]
      rfl
    · rw [if_neg ht]
      have ih2 := ih (addPair acc (target_field n fmap pre) v)
      simp only [projVals] at ih2
      rw [ih2, lookup_addPair, if_neg (fun h => ht h.symm)]

theorem contains_append_one (vs : List String) (v w : String) :
    (vs ++ [v]).contains w = (vs.contains w || w == v) := by
  by_cases hw : w = v
  · subst hw
    simp [List.contains, List.elem_eq_mem]
  · simp [List.contains, List.elem_eq_mem, hw]

theorem dedupeInto_some (l : List String) :
    ∀ vs, dedupeInto (some vs) l = some (l.foldl addValue vs) := by
  induction l with
  | nil => intro vs; rfl
  | cons v rest ih =>
    intro vs
    simp only [dedupeInto, Option.getD_some, List.foldl_cons]
    exact ih (addValue vs v)

theorem foldl_addValue_firstSeen (l : List String) :
    ∀ vs, l.foldl addValue vs =
      vs ++ firstSeen (l.filter (fun w => !vs.contains w)) := by
  induction l with
  | nil =>
    intro vs
    simp [firstSeen]
  | cons v rest ih =>
    intro vs
    simp only [List.foldl_cons, List.filter_cons]
    by_cases hc : vs.contains v = true
    · simp only [hc, Bool.not_true, Bool.false_eq_true, if_false]
      rw [show addValue vs v = vs from by unfold addValue; rw [if_pos hc]]
      exact ih vs
    · have hcf : vs.contains v = false := by simpa using hc
      simp only [hcf, Bool.not_false, if_true]
      rw [show addValue vs v = vs ++ [v] from by unfold addValue; rw [hcf]; simp]
      rw [ih (vs ++ [v])]
      conv_rhs => rw [firstSeen]
      rw [List.append_assoc]
      simp only [List.singleton_append, List.cons_append]
      congr 2
      rw [List.filter_filter, List.nil_append]
      congr 1
      apply List.filter_congr
      intro w _
      rw [contains_append_one]
      by_cases hw : w = v
      · subst hw
        simp
      · simp [hw]

theorem dedupeInto_none_firstSeen (l : List String) :
    dedupeInto none l = if l = [] then none else some (firstSeen l) := by
  cases l with
  | nil => rfl
  | cons v rest =>
    rw [if_neg (List.cons_ne_nil v rest)]
    show dedupeInto (some (addValue [] v)) rest = _
    rw [dedupeInto_some]
    congr 1
    rw [foldl_addValue_firstSeen]
    rw [show addValue [] v = [v] from by simp [addValue]]
    conv_rhs => rw [firstSeen]
    simp only [List.singleton_append, List.cons_append]
    rw [List.nil_append]
    refine congrArg (List.cons v)
      (congrArg firstSeen (List.filter_congr (fun w _ => ?_)))
    by_cases hw : w = v
    · subst hw
      simp [List.contains, List.elem_eq_mem]
    · simp [List.contains, List.elem_eq_mem, hw]

theorem firstSeen_subset (l : List String) (a : String) (h : a ∈ firstSeen l) :
    a ∈ l := by
  induction l using firstSeen.induct with
  | case1 => simp [firstSeen] at h
  | case2 v vs ih =>
    rw [firstSeen] at h
    rcases List.mem_cons.mp h with h1 | h2
    · simp [h1]
    · have hm := List.mem_filter.mp (ih h2)
      simp [hm.1]

theorem firstSeen_nodup (l : List String) : (firstSeen l).Nodup := by
  induction l using firstSeen.induct with
  | case1 => simp [firstSeen]
  | case2 v vs ih =>
    rw [firstSeen, List.nodup_cons]
    refine ⟨fun hmem => ?_, ih⟩
    have hm := List.mem_filter.mp (firstSeen_subset _ _ hmem)
    simp at hm

theorem addPair_ne_nil (acc : List (String × List String)) (f v : String) :
    addPair acc f v ≠ [] := by
  cases acc with
  | nil => simp [addPair]
  | cons p rest =>
    obtain ⟨g, vs⟩ := p
    by_cases hg : g = f <;> simp [addPair, hg]

theorem foldl_addPair_ne_nil (fmap : List (String × String)) (pre : String) :
    ∀ (pairs : List (String × String)) (acc : List (String × List String)),
      acc ≠ [] →
      pairs.foldl (fun a p => addPair a (target_field p.1 fmap pre) p.2) acc ≠ [] := by
  intro pairs
  induction pairs with
  | nil => intro acc h; exact h
  | cons p rest ih =>
    intro acc _
    simp only [List.foldl_cons]
    exact ih _ (addPair_ne_nil acc _ _)

theorem field_to_values_ne_nil (fmap : List (String × String)) (pre : String)
    (pairs : List (String × String)) (h : pairs ≠ []) :
    field_to_values fmap pre pairs ≠ [] := by
  cases pairs with
  | nil => exact absurd rfl h
  | cons p rest =>
    simp only [field_to_values, List.foldl_cons]
    exact foldl_addPair_ne_nil fmap pre rest _ (addPair_ne_nil [] _ _)

/-- C4: for a document with updates enabled, a non-empty id and at least one
finding, exactly one update operation is queued; its payload groups the
document's findings by resolved target field — the values stored under each
field are exactly the first-occurrence deduplication, in first-seen order, of
the findings' values resolving to that field — so each value appears at most
once per field even when it occurred several times among the findings. -/
theorem C4_update_grouping (cfg : Config) (dets : List Detector)
    (seen : List CsvKey) (hit : Hit)
    (hupd : cfg.apply_updates = true) (hid : hit.id ≠ "")
    (htext : get_text_from_source hit.source cfg.content_field
      (some cfg.alt_content_field) ≠ "")
    (hpairs : extract_from_text
      (get_text_from_source hit.source cfg.content_field
        (some cfg.alt_content_field)) dets ≠ []) :
    (processDoc cfg dets seen hit).update =
      some (hit.id, field_to_values cfg.fmap cfg.field_pre
        (extract_from_text
          (get_text_from_source hit.source cfg.content_field
            (some cfg.alt_content_field)) dets)) ∧
    (∀ (pairs : List (String × String)) (f : String),
      lookupAssocL (field_to_values cfg.fmap cfg.field_pre pairs) f =
        (if projVals cfg.fmap cfg.field_pre pairs f = [] then none
         else some (firstSeen (projVals cfg.fmap cfg.field_pre pairs f)))) ∧
    (∀ (pairs : List (String × String)) (f : String) (vs : List String),
      lookupAssocL (field_to_values cfg.fmap cfg.field_pre pairs) f = some vs →
      vs.Nodup) := by
  have hlook : ∀ (pairs : List (String × String)) (f : String),
      lookupAssocL (field_to_values cfg.fmap cfg.field_pre pairs) f =
        (if projVals cfg.fmap cfg.field_pre pairs f = [] then none
         else some (firstSeen (projVals cfg.fmap cfg.field_pre pairs f))) := by
    intro pairs f
    show lookupAssocL (pairs.foldl _ []) f = _
    rw [lookup_field_to_values_aux cfg.fmap cfg.field_pre f pairs []]
    show dedupeInto none _ = _
    exact dedupeInto_none_firstSeen _
  refine ⟨?_, hlook, ?_⟩
  · simp only [processDoc]
    rw [if_neg htext]
    have hne : (extract_from_text
        (get_text_from_source hit.source cfg.content_field
          (some cfg.alt_content_field)) dets).isEmpty = false := by
      cases hext : extract_from_text
          (get_text_from_source hit.source cfg.content_field
            (some cfg.alt_content_field)) dets with
      | nil => exact absurd hext hpairs
      | cons a l => rfl
    have hfv : (field_to_values cfg.fmap cfg.field_pre
        (extract_from_text
          (get_text_from_source hit.source cfg.content_field
            (some cfg.alt_content_field)) dets)).isEmpty = false := by
      cases hext : field_to_values cfg.fmap cfg.field_pre
          (extract_from_text
            (get_text_from_source hit.source cfg.content_field
              (some cfg.alt_content_field)) dets) with
      | nil => exact absurd hext (field_to_values_ne_nil _ _ _ hpairs)
      | cons a l => rfl
    simp only [hupd, hne, hfv, Bool.not_false, Bool.and_self, if_true,
      if_neg hid]
  · intro pairs f vs hvs
    rw [hlook pairs f] at hvs
    split at hvs
    · exact absurd hvs (by simp)
    · simp only [Option.some.injEq] at hvs
      subst hvs
      exact firstSeen_nodup _

theorem C4_witness :
    (processDoc
        ⟨"content", "attachment.content", "path.virtual", false, true,
          [("A", "f"), ("B", "f")], "pii."⟩
        [⟨"A", fun _ => ["v1", "v1"], none, ""⟩, ⟨"B", fun _ => ["v2"], none, ""⟩]
        [] ⟨"1", [("content", .vstr "x")]⟩).update =
      some ("1", [("f", ["v1", "v2"])]) := by
  have h := (C4_update_grouping
    ⟨"content", "attachment.content", "path.virtual", false, true,
      [("A", "f"), ("B", "f")], "pii."⟩
    [⟨"A", fun _ => ["v1", "v1"], none, ""⟩, ⟨"B", fun _ => ["v2"], none, ""⟩]
    [] ⟨"1", [("content", .vstr "x")]⟩
    rfl (by decide) (by decide) (by decide)).1
  exact h.trans (by decide)

theorem csvEmit_false (path id : String) :
    ∀ (pairs : List (String × String)) (seen : List CsvKey),
      csvEmit false path id seen pairs =
        (pairs.map (fun p => (⟨p.1, p.2, path, id⟩ : Row)), seen) := by
  intro pairs
  induction pairs with
  | nil => intro seen; rfl
  | cons p rest ih =>
    intro seen
    obtain ⟨d, v⟩ := p
    simp only [csvEmit, Bool.false_and, Bool.false_eq_true, if_false, ih seen,
      List.map_cons]

theorem csvEmit_true (path id : String) :
    ∀ (pairs : List (String × String)) (seen : List CsvKey),
      csvEmit true path id seen pairs =
        (firstByKey seen (pairs.map fun p => ⟨p.1, p.2, path, id⟩),
         seenAfter seen (pairs.map fun p => ⟨p.1, p.2, path, id⟩)) := by
  intro pairs
  induction pairs with
  | nil => intro seen; rfl
  | cons p rest ih =>
    intro seen
    obtain ⟨d, v⟩ := p
    simp only [List.map_cons, firstByKey, seenAfter, rowKey]
    by_cases hc : seen.contains (d, v, path) = true
    · simp only [csvEmit, Bool.true_and, hc, if_true, ih seen]
    · simp only [csvEmit, Bool.true_and, hc, Bool.false_eq_true, if_false,
        if_true, ih ((d, v, path) :: seen)]

theorem firstByKey_append (b : List Row) :
    ∀ (a : List Row) (seen : List CsvKey),
      firstByKey seen (a ++ b) =
        firstByKey seen a ++ firstByKey (seenAfter seen a) b ∧
      seenAfter seen (a ++ b) = seenAfter (seenAfter seen a) b := by
  intro a
  induction a with
  | nil => intro seen; exact ⟨rfl, rfl⟩
  | cons r rs ih =>
    intro seen
    by_cases hc : seen.contains (rowKey r) = true
    · simp only [List.cons_append, firstByKey, seenAfter, hc, if_true]
      exact ih seen
    · simp only [List.cons_append, firstByKey, seenAfter, hc,
        Bool.false_eq_true, if_false, List.cons_append, List.append_eq]
      exact ⟨by rw [(ih (rowKey r :: seen)).1], (ih (rowKey r :: seen)).2⟩

theorem processDoc_rows_seen (cfg : Config) (dets : List Detector)
    (seen : List CsvKey) (hit : Hit) :
    (processDoc cfg dets seen hit).rows =
      (if cfg.dedupe then firstByKey seen (docAllRows cfg dets hit)
       else docAllRows cfg dets hit) ∧
    (processDoc cfg dets seen hit).seen =
      (if cfg.dedupe then seenAfter seen (docAllRows cfg dets hit) else seen) := by
  by_cases htext :
    get_text_from_source hit.source cfg.content_field (some cfg.alt_content_field) = ""
  · cases hd : cfg.dedupe <;>
      simp [processDoc, docAllRows, htext, firstByKey, seenAfter]
  · simp only [processDoc, docAllRows]
    rw [if_neg htext, if_neg htext]
    cases hd : cfg.dedupe
    · rw [csvEmit_false]
      exact ⟨rfl, rfl⟩
    · rw [csvEmit_true]
      exact ⟨rfl, rfl⟩

theorem runMain_aux (cfg : Config) (dets : List Detector) :
    ∀ (hits : List Hit) (st : RunState),
      (hits.foldl (runStep cfg dets) st).rows =
        st.rows ++ (if cfg.dedupe then
          firstByKey st.seen (hits.flatMap (docAllRows cfg dets))
          else hits.flatMap (docAllRows cfg dets)) ∧
      (hits.foldl (runStep cfg dets) st).seen =
        (if cfg.dedupe then
          seenAfter st.seen (hits.flatMap (docAllRows cfg dets)) else st.seen) ∧
      (hits.foldl (runStep cfg dets) st).pairs_count =
        st.pairs_count + (if cfg.dedupe then
          (firstByKey st.seen (hits.flatMap (docAllRows cfg dets))).length
          else (hits.flatMap (docAllRows cfg dets)).length) := by
  intro hits
  induction hits with
  | nil =>
    intro st
    cases hd : cfg.dedupe <;> simp [firstByKey, seenAfter]
  | cons hit rest ih =>
    intro st
    simp only [List.foldl_cons, List.flatMap_cons]
    have hdoc := processDoc_rows_seen cfg dets st.seen hit
    have ihs := ih (runStep cfg dets st hit)
    cases hd : cfg.dedupe
    · rw [hd] at hdoc ihs
      simp only [Bool.false_eq_true, if_false] at hdoc ihs ⊢
      refine ⟨?_, ?_, ?_⟩
      · rw [ihs.1]
        simp only [runStep, hdoc.1, List.append_assoc]
      · rw [ihs.2.1]
        simp only [runStep, hdoc.2]
      · rw [ihs.2.2]
        simp only [runStep, hdoc.1, hdoc.2, List.length_append]
        omega
    · rw [hd] at hdoc ihs
      simp only [if_true] at hdoc ihs ⊢
      have hsplit := firstByKey_append (rest.flatMap (docAllRows cfg dets))
        (docAllRows cfg dets hit) st.seen
      refine ⟨?_, ?_, ?_⟩
      · rw [ihs.1]
        simp only [runStep, hdoc.1, hdoc.2, hsplit.1, List.append_assoc]
      · rw [ihs.2.1]
        simp only [runStep, hdoc.2, hsplit.2]
      · rw [ihs.2.2]
        simp only [runStep, hdoc.1, hdoc.2, hsplit.1, List.length_append]
        omega

/-- C5: report rows across a run are, with dedupe enabled, exactly the
first-occurrence-per-`(detector, value, path)`-key subsequence of the full
finding stream — the key omits the doc id, so an equal finding from a
different document is a duplicate and is neither written nor counted — and,
with dedupe disabled, exactly the full stream, one row per finding; in both
modes the emitted-rows counter equals the number of rows written. -/
theorem C5_report_dedupe (cfg : Config) (dets : List Detector)
    (hits : List Hit) :
    (runMain cfg dets hits).rows =
      (if cfg.dedupe then
        firstByKey [] (hits.flatMap (docAllRows cfg dets))
        else hits.flatMap (docAllRows cfg dets)) ∧
    (runMain cfg dets hits).pairs_count = (runMain cfg dets hits).rows.length := by
  have h := runMain_aux cfg dets hits ⟨[], [], 0, [], 0⟩
  simp only [runMain]
  refine ⟨by simpa using h.1, ?_⟩
  rw [h.2.2, h.1]
  cases cfg.dedupe <;> simp
